import Mathlib

/-!
Verification development for the insurance portfolio analytics pipeline
(`src/insurance_portfolio_sql_dashboard.py`).

The script generates a synthetic book of business (1000 policies, a random
number of claims per policy) and runs aggregation queries over it.  We embed
the generation step as a pure function of an abstract stream of random draws
(`Draws`), and each SQL query as a pure function over the generated lists.
Monetary values are modelled as rationals; the Python two-decimal rounding
(`round(x, 2)` / `ndarray.round(2)`, both round-half-to-even) is modelled by
`round2`; SQL `NULL` is `Option.none`; a non-finite float (infinity or NaN,
as produced by an unguarded float division by zero) is `FloatResult.nonfinite`.
-/

set_option maxRecDepth 8192

namespace Insurance

/-- Round a rational to the nearest integer, ties to even (the rounding mode
of the Python `round` and the numpy `round`). -/
def roundHalfEven (q : ℚ) : ℤ :=
  let f : ℤ := ⌊q⌋
  let r : ℚ := q - (f : ℚ)
  if r < 1/2 then f
  else if 1/2 < r then f + 1
  else if Even f then f else f + 1

/-- `round(x, 2)`: round to two decimal places, half to even. -/
def round2 (q : ℚ) : ℚ := ((roundHalfEven (100 * q) : ℤ) : ℚ) / 100

/-- The numpy `clip(x, lo, hi)`. -/
def clip (x lo hi : ℚ) : ℚ := min (max x lo) hi

/-- A row of the `Policies` table (`policy_id` is the SQLite autoincrement
key, assigned 1, 2, ... in insertion order). -/
structure Policy where
  policy_id : ℕ
  customer_age : ℤ
  car_type : String
  premium : ℚ
deriving DecidableEq

/-- A row of the `Claims` table (`claim_date` is always NULL in this run and
is omitted). -/
structure Claim where
  claim_id : ℕ
  policy_id : ℕ
  claim_amount : ℚ
deriving DecidableEq

/-- The stream of random draws consumed by one run of the generator.  The
numpy RNG is abstracted: `ageDraw i` is the value of `rng.integers(18, 80)`
for the `i`-th policy (its contract puts it in `[18, 80)`), `carDraw i` the
categorical draw, `premDraw i` the `rng.normal(1200, 250)` draw,
`claimCountDraw i lam` the `rng.poisson(lam)` draw (any natural number), and
`severityDraw i j` the `rng.lognormal(mu, sigma)` draw for the `j`-th claim of
the `i`-th policy (its support is the positive reals). -/
structure Draws where
  ageDraw : ℕ → ℤ
  carDraw : ℕ → String
  premDraw : ℕ → ℚ
  claimCountDraw : ℕ → ℚ → ℕ
  severityDraw : ℕ → ℕ → ℚ

/-- `N_POLICIES = 1000`. -/
def N_POLICIES : ℕ := 1000

/-- The `i`-th generated policy: age and car type are the raw draws, the
premium is the normal draw clipped to `[400, 4000]` and rounded to 2 decimal
places; `policy_id` is `i + 1` (autoincrement). -/
def mkPolicy (d : Draws) (i : ℕ) : Policy :=
  { policy_id := i + 1
    customer_age := d.ageDraw i
    car_type := d.carDraw i
    premium := round2 (clip (d.premDraw i) 400 4000) }

/-- The generated `Policies` table (the script uses `n = N_POLICIES`). -/
def genPolicies (d : Draws) (n : ℕ) : List Policy :=
  (List.range n).map (mkPolicy d)

/-- The per-policy Poisson rate computed in the claim-generation loop:
base 0.12; `*= 2.0` if Sports else `*= 1.4` if Truck; `*= 1.6` if age < 25. -/
def base_lambda (car : String) (age : ℤ) : ℚ :=
  let b0 : ℚ := 12/100
  let b1 : ℚ := if car = "Sports" then b0 * 2
    else if car = "Truck" then b0 * (14/10) else b0
  if age < 25 then b1 * (16/10) else b1

/-- The `claims_rows` entries `(policy_id, round(amt, 2))` produced for the
`i`-th policy: a Poisson draw at rate `base_lambda` gives the number of
claims, each with a rounded lognormal severity. -/
def claimsRowsFor (d : Draws) (i : ℕ) (p : Policy) : List (ℕ × ℚ) :=
  let lam := base_lambda p.car_type p.customer_age
  (List.range (d.claimCountDraw i lam)).map
    (fun j => (p.policy_id, round2 (d.severityDraw i j)))

/-- The full `claims_rows` list, built by iterating the policies in table
order. -/
def claims_rows (d : Draws) (ps : List Policy) : List (ℕ × ℚ) :=
  ps.enum.flatMap (fun ip => claimsRowsFor d ip.1 ip.2)

/-- The generated `Claims` table: bulk insert of `claims_rows`, with
autoincrement `claim_id` 1, 2, ... in list order. -/
def genClaims (d : Draws) (ps : List Policy) : List Claim :=
  (claims_rows d ps).enum.map
    (fun kr => { claim_id := kr.1 + 1, policy_id := kr.2.1, claim_amount := kr.2.2 })

/-- One full generator run from a draw stream: the `Policies` and `Claims`
tables. -/
def generate (d : Draws) : List Policy × List Claim :=
  let ps := genPolicies d N_POLICIES
  (ps, genClaims d ps)

/-- Outcome of a float computation: a finite value, or the non-finite result
(infinity or NaN) that an unguarded float division by zero produces. -/
inductive FloatResult where
  | finite (val : ℚ)
  | nonfinite
deriving DecidableEq

/-- Float division of finite operands: non-finite exactly when the
denominator is zero. -/
def fdiv (a b : ℚ) : FloatResult :=
  if b = 0 then FloatResult.nonfinite else FloatResult.finite (a / b)

/-- The claims joined to a given policy id (`LEFT JOIN Claims c ON
p.policy_id = c.policy_id`). -/
def claimsOf (cs : List Claim) (pid : ℕ) : List Claim :=
  cs.filter (fun c => c.policy_id = pid)

/-- A row of `q_per_policy` (also the row shape of `q_top_policies`). -/
structure PerPolicyRow where
  policy_id : ℕ
  customer_age : ℤ
  car_type : String
  premium : ℚ
  total_claims_amount : ℚ
  claims_count : ℕ
deriving DecidableEq

/-- The aggregated row for one policy: `COALESCE(SUM(c.claim_amount), 0.0)`
and `COUNT(c.claim_id)` over its joined claims. -/
def perPolicyRowOf (cs : List Claim) (p : Policy) : PerPolicyRow :=
  let mc := claimsOf cs p.policy_id
  { policy_id := p.policy_id
    customer_age := p.customer_age
    car_type := p.car_type
    premium := p.premium
    total_claims_amount := (mc.map Claim.claim_amount).sum
    claims_count := mc.length }

/-- `q_per_policy`: `GROUP BY p.policy_id` over the left join.  Policy ids
are unique (autoincrement), so there is one group per policy, in table
order. -/
def per_policy (ps : List Policy) (cs : List Claim) : List PerPolicyRow :=
  ps.map (perPolicyRowOf cs)

/-- `ORDER BY total_claims_amount DESC`: row `a` may precede row `b` exactly
when the total claims amount of `b` is at most that of `a`. -/
def claimsDescRel (a b : PerPolicyRow) : Prop :=
  b.total_claims_amount ≤ a.total_claims_amount

instance : DecidableRel claimsDescRel :=
  fun _x _y => inferInstanceAs (Decidable (_ ≤ _))

instance : IsTotal PerPolicyRow claimsDescRel :=
  ⟨fun a b => le_total b.total_claims_amount a.total_claims_amount⟩

instance : IsTrans PerPolicyRow claimsDescRel :=
  ⟨fun _ _ _ h1 h2 => le_trans h2 h1⟩

/-- `q_top_policies`: the per-policy aggregation, `ORDER BY
total_claims_amount DESC LIMIT 10`. -/
def top_policies (ps : List Policy) (cs : List Claim) : List PerPolicyRow :=
  (List.insertionSort claimsDescRel (per_policy ps cs)).take 10

/-- A row of `q_loss_by_car`. -/
structure CarRow where
  car_type : String
  num_policies : ℕ
  total_claims : ℚ
  total_premiums : ℚ
  loss_ratio : Option ℚ
  total_claims_count : ℕ
deriving DecidableEq

/-- Number of joined rows a policy contributes to the left join: one per
claim, or a single all-NULL-claim row when it has none. -/
def joinRowCount (cs : List Claim) (p : Policy) : ℕ :=
  max 1 (claimsOf cs p.policy_id).length

/-- The `q_loss_by_car` row for one car type.  `SUM(p.premium)` runs over the
joined rows, so the premium of a policy is counted once per joined row;
`COUNT(DISTINCT p.policy_id)` deduplicates; the loss ratio is `NULL`
(`Option.none`) when the summed premium is zero. -/
def carRowOf (ps : List Policy) (cs : List Claim) (ct : String) : CarRow :=
  let g := ps.filter (fun p => p.car_type = ct)
  let totPrem := (g.map (fun p => p.premium * (joinRowCount cs p : ℚ))).sum
  let totClaims := (g.map (fun p => ((claimsOf cs p.policy_id).map Claim.claim_amount).sum)).sum
  { car_type := ct
    num_policies := ((g.map Policy.policy_id).dedup).length
    total_claims := totClaims
    total_premiums := totPrem
    loss_ratio := if totPrem = 0 then none else some (totClaims / totPrem)
    total_claims_count := (g.map (fun p => (claimsOf cs p.policy_id).length)).sum }

/-- `q_loss_by_car`: one row per distinct car type present.  (`ORDER BY
loss_ratio DESC` only permutes the rows; the properties proved below are
membership statements, so the permutation is not modelled.) -/
def loss_by_car (ps : List Policy) (cs : List Claim) : List CarRow :=
  ((ps.map Policy.car_type).dedup).map (carRowOf ps cs)

/-- The `CASE` expression of `q_age_groups` (SQL `BETWEEN` is inclusive on
both ends; the `ELSE` branch catches everything else). -/
def age_group (a : ℤ) : String :=
  if 18 ≤ a ∧ a ≤ 29 then "18-29"
  else if 30 ≤ a ∧ a ≤ 39 then "30-39"
  else if 40 ≤ a ∧ a ≤ 49 then "40-49"
  else if 50 ≤ a ∧ a ≤ 59 then "50-59"
  else if 60 ≤ a ∧ a ≤ 69 then "60-69"
  else "70+"

/-- The six bucket labels in their canonical order. -/
def bucketLabels : List String :=
  ["18-29", "30-39", "40-49", "50-59", "60-69", "70+"]

/-- Position of a label in the canonical bucket sequence. -/
def bucketIdx (lbl : String) : ℕ := bucketLabels.indexOf lbl

/-- A row of `q_age_groups`. -/
structure AgeRow where
  age_group : String
  num_policies : ℕ
  avg_claims_per_policy : ℚ
  total_claims_amount : ℚ
  total_premiums : ℚ
  loss_ratio : Option ℚ
deriving DecidableEq

/-- The `q_age_groups` row for one bucket label, aggregating the CTE
`policy_claims` (one row per policy, embedded by `per_policy`). -/
def ageRowOf (ps : List Policy) (cs : List Claim) (lbl : String) : AgeRow :=
  let g := (per_policy ps cs).filter (fun r => age_group r.customer_age = lbl)
  let totPrem := (g.map PerPolicyRow.premium).sum
  let totClaims := (g.map PerPolicyRow.total_claims_amount).sum
  { age_group := lbl
    num_policies := g.length
    avg_claims_per_policy := ((g.map (fun r => (r.claims_count : ℚ))).sum) / (g.length : ℚ)
    total_claims_amount := totClaims
    total_premiums := totPrem
    loss_ratio := if totPrem = 0 then none else some (totClaims / totPrem) }

/-- The distinct bucket labels of the policies present (the groups formed by
`GROUP BY age_group`). -/
def age_labels_present (ps : List Policy) : List String :=
  (ps.map (fun p => age_group p.customer_age)).dedup

/-- `q_age_groups`: one row per non-empty bucket, `ORDER BY age_group`
(ascending string order). -/
def age_group_stats (ps : List Policy) (cs : List Claim) : List AgeRow :=
  (List.insertionSort (fun a b => a ≤ b) (age_labels_present ps)).map (ageRowOf ps cs)

/-- The scalar summary block built in pandas at the end of the script.  The
overall loss ratio is an unguarded float division
`per_policy.total_claims_amount.sum() / per_policy.premium.sum()`. -/
structure SummaryMetrics where
  total_policies : ℕ
  total_claims_records : ℕ
  total_claims_amount : ℚ
  average_loss_ratio_overall : FloatResult
deriving DecidableEq

/-- `summary_metrics` as computed by the script (with `cs` the table whose
length `len(claims_rows)` reports). -/
def summary_metrics (ps : List Policy) (cs : List Claim) : SummaryMetrics :=
  let pp := per_policy ps cs
  { total_policies := pp.length
    total_claims_records := cs.length
    total_claims_amount := (pp.map PerPolicyRow.total_claims_amount).sum
    average_loss_ratio_overall :=
      fdiv ((pp.map PerPolicyRow.total_claims_amount).sum)
        ((pp.map PerPolicyRow.premium).sum) }

/-- Modelled from the spec: the claim-frequency rate written multiplicatively
as base constant times car-type factor times age factor. -/
def specRate (car : String) (age : ℤ) : ℚ :=
  (12/100) * (if car = "Sports" then 2 else if car = "Truck" then 14/10 else 1)
    * (if age < 25 then 16/10 else 1)

/-- A concrete draw stream with every draw constant and no claims. -/
def constDraws : Draws :=
  { ageDraw := fun _ => 30
    carDraw := fun _ => "Sedan"
    premDraw := fun _ => 1200
    claimCountDraw := fun _ _ => 0
    severityDraw := fun _ _ => 7000 }

/-- A seed-indexed family of draw streams (all equal), standing for the
deterministic seed-to-stream map of the PRNG. -/
def constStream : ℕ → Draws := fun _ => constDraws

/-- A stream drawing exactly one claim per policy, severity 7000. -/
def oneClaimDraws : Draws :=
  { constDraws with claimCountDraw := fun _ _ => 1 }

/-- A stream drawing one claim per policy with a severity draw of
`1/250 = 0.004`: strictly positive (inside the lognormal support), but
rounding it to two decimal places gives `0.00`. -/
def tinySevDraws : Draws :=
  { constDraws with
    claimCountDraw := fun _ _ => 1
    severityDraw := fun _ _ => 1/250 }

/-- A small concrete `Policies` table used to instantiate theorems. -/
def samplePolicies : List Policy :=
  [{ policy_id := 1, customer_age := 30, car_type := "Sedan", premium := 1000 },
   { policy_id := 2, customer_age := 40, car_type := "SUV", premium := 1500 }]

/-- A small concrete `Claims` table used to instantiate theorems. -/
def sampleClaims : List Claim :=
  [{ claim_id := 1, policy_id := 2, claim_amount := 500 }]

/-- A degenerate table with a zero premium, reaching the zero-denominator
branch of the SQL loss-ratio guards. -/
def zeroPremiumPolicies : List Policy :=
  [{ policy_id := 1, customer_age := 30, car_type := "Sedan", premium := 0 }]

/-! ## Rounding lemmas -/

theorem roundHalfEven_eq_floor_or_succ (q : ℚ) :
    roundHalfEven q = ⌊q⌋ ∨ roundHalfEven q = ⌊q⌋ + 1 := by
  simp only [roundHalfEven]
  split_ifs <;> simp

theorem floor_le_roundHalfEven (q : ℚ) : ⌊q⌋ ≤ roundHalfEven q := by
  rcases roundHalfEven_eq_floor_or_succ q with h | h <;> omega

theorem roundHalfEven_le_ceil (q : ℚ) : roundHalfEven q ≤ ⌈q⌉ := by
  have hstep : 1/2 ≤ q - (⌊q⌋ : ℚ) → ⌊q⌋ + 1 ≤ ⌈q⌉ := by
    intro h
    have h1 : (⌊q⌋ : ℚ) < q := by linarith
    have h2 : (⌊q⌋ : ℚ) < (⌈q⌉ : ℚ) := lt_of_lt_of_le h1 (Int.le_ceil q)
    have h3 : ⌊q⌋ < ⌈q⌉ := by exact_mod_cast h2
    omega
  simp only [roundHalfEven]
  split_ifs with h1 h2
  · exact Int.floor_le_ceil q
  · exact hstep (le_of_lt h2)
  · exact Int.floor_le_ceil q
  · exact hstep (not_lt.mp h1)

theorem one_le_roundHalfEven {q : ℚ} (h : 1/2 < q) : 1 ≤ roundHalfEven q := by
  rcases le_or_lt 1 ⌊q⌋ with hf | hf
  · exact le_trans hf (floor_le_roundHalfEven q)
  · have h0 : (0:ℤ) ≤ ⌊q⌋ := Int.floor_nonneg.mpr (by linarith)
    have hf0 : ⌊q⌋ = 0 := by omega
    have hc : (⌊q⌋ : ℚ) = 0 := by exact_mod_cast hf0
    simp only [roundHalfEven]
    split_ifs with h1 h2
    · exfalso; rw [hc] at h1; linarith
    · omega
    · exfalso; rw [hc] at h2; push_neg at h2; linarith
    · omega

theorem round2_nonneg {q : ℚ} (h : 0 ≤ q) : 0 ≤ round2 q := by
  have h1 : (0:ℤ) ≤ ⌊100 * q⌋ := Int.floor_nonneg.mpr (by linarith)
  have h2 : (0:ℤ) ≤ roundHalfEven (100 * q) := le_trans h1 (floor_le_roundHalfEven _)
  have h3 : (0:ℚ) ≤ ((roundHalfEven (100 * q) : ℤ) : ℚ) := by exact_mod_cast h2
  unfold round2
  exact div_nonneg h3 (by norm_num)

theorem round2_pos {q : ℚ} (h : 1/200 < q) : 0 < round2 q := by
  have h1 : (1:ℤ) ≤ roundHalfEven (100 * q) := one_le_roundHalfEven (by linarith)
  have h2 : (1:ℚ) ≤ ((roundHalfEven (100 * q) : ℤ) : ℚ) := by exact_mod_cast h1
  unfold round2
  exact div_pos (by linarith) (by norm_num)

theorem round2_clip_bounds (v : ℚ) :
    400 ≤ round2 (clip v 400 4000) ∧ round2 (clip v 400 4000) ≤ 4000 := by
  have h1 : 400 ≤ clip v 400 4000 := le_min (le_max_right v 400) (by norm_num)
  have h2 : clip v 400 4000 ≤ 4000 := min_le_right _ _
  have hf : (40000:ℤ) ≤ ⌊100 * clip v 400 4000⌋ := Int.le_floor.mpr (by push_cast; linarith)
  have hcl : ⌈100 * clip v 400 4000⌉ ≤ (400000:ℤ) := Int.ceil_le.mpr (by push_cast; linarith)
  have hlo : (40000:ℤ) ≤ roundHalfEven (100 * clip v 400 4000) :=
    le_trans hf (floor_le_roundHalfEven _)
  have hhi : roundHalfEven (100 * clip v 400 4000) ≤ 400000 :=
    le_trans (roundHalfEven_le_ceil _) hcl
  have hlo' : (40000:ℚ) ≤ ((roundHalfEven (100 * clip v 400 4000) : ℤ) : ℚ) := by
    exact_mod_cast hlo
  have hhi' : ((roundHalfEven (100 * clip v 400 4000) : ℤ) : ℚ) ≤ 400000 := by
    exact_mod_cast hhi
  unfold round2
  constructor <;> [linarith; linarith]

/-! ## Claims C4, C5, C9, C10 -/

/-- Claim C4: every generated policy has `18 ≤ customer_age ≤ 79`, and its
premium — the normal draw clipped to `[400, 4000]` and rounded to two
decimal places — stays within `[400, 4000]`.  The hypothesis is the contract
of `rng.integers(18, 80)`: the age draws lie in `[18, 80)`. -/
theorem generated_policy_bounds (d : Draws) (n : ℕ)
    (hage : ∀ i, 18 ≤ d.ageDraw i ∧ d.ageDraw i < 80) :
    ∀ p ∈ genPolicies d n,
      (18 ≤ p.customer_age ∧ p.customer_age ≤ 79) ∧
      (400 ≤ p.premium ∧ p.premium ≤ 4000) := by
  intro p hp
  simp only [genPolicies, List.mem_map, List.mem_range] at hp
  obtain ⟨i, _, rfl⟩ := hp
  simp only [mkPolicy]
  refine ⟨⟨(hage i).1, ?_⟩, round2_clip_bounds (d.premDraw i)⟩
  have := (hage i).2
  omega

theorem generated_policy_bounds_witness :
    (18 ≤ (mkPolicy constDraws 0).customer_age ∧ (mkPolicy constDraws 0).customer_age ≤ 79) ∧
    (400 ≤ (mkPolicy constDraws 0).premium ∧ (mkPolicy constDraws 0).premium ≤ 4000) :=
  generated_policy_bounds constDraws 1
    (fun _ => ⟨by norm_num [constDraws], by norm_num [constDraws]⟩)
    (mkPolicy constDraws 0) (by simp [genPolicies])

/-- Claim C5: the Poisson rate passed to the claim-count draw of every
policy is `base_lambda`, which equals the base constant `0.12` times the
car-type factor (2.0 for Sports, 1.4 for Truck, 1.0 otherwise) times the
age factor (1.6 when age < 25, 1.0 otherwise); in particular a Sports
policy with age < 25 gets rate `0.12 * 2.0 * 1.6`. -/
theorem claim_rate_multiplicative :
    (∀ (d : Draws) (i : ℕ) (p : Policy),
      (claimsRowsFor d i p).length
        = d.claimCountDraw i (base_lambda p.car_type p.customer_age)) ∧
    (∀ (car : String) (age : ℤ), base_lambda car age = specRate car age) ∧
    base_lambda "Sports" 20 = 12/100 * 2 * (16/10) := by
  refine ⟨fun d i p => by simp [claimsRowsFor], fun car age => ?_, by norm_num [base_lambda]⟩
  simp only [base_lambda, specRate]
  split_ifs <;> ring

/-- Claim C9: generation is a pure function of the draw stream of the seed —
for any deterministic seed-to-stream map, equal seeds give equal Policy
and Claim tables. -/
theorem generator_deterministic (stream : ℕ → Draws) (s1 s2 : ℕ) (h : s1 = s2) :
    generate (stream s1) = generate (stream s2) := by
  rw [h]

theorem generator_deterministic_witness :
    generate (constStream 42) = generate (constStream 42) :=
  generator_deterministic constStream 42 42 rfl

theorem age_group_mem_bucketLabels (a : ℤ) : age_group a ∈ bucketLabels := by
  simp only [age_group]
  split_ifs <;> decide

/-- Claim C10: the age-bucketing `CASE` expression is total — every integer
age gets one of the six labels — and any age matched by no named band, in
particular any age below 18, falls to the `ELSE` branch and is labelled
`"70+"`. -/
theorem age_group_total_catch_all :
    (∀ a : ℤ, age_group a ∈ bucketLabels) ∧
    (∀ a : ℤ, a < 18 → age_group a = "70+") := by
  refine ⟨age_group_mem_bucketLabels, fun a ha => ?_⟩
  simp only [age_group]
  split_ifs with h1 h2 h3 h4 h5 <;> first | rfl | (exfalso; omega)

theorem age_group_total_catch_all_witness :
    age_group 5 = "70+" ∧ age_group 5 ∈ bucketLabels :=
  ⟨age_group_total_catch_all.2 5 (by norm_num), age_group_total_catch_all.1 5⟩

/-! ## Claims C3 and C7: outer-join completeness and the sum check -/

theorem filter_pid_length_one {ps : List Policy} {x : ℕ}
    (hnd : (ps.map Policy.policy_id).Nodup) (hx : x ∈ ps.map Policy.policy_id) :
    (ps.filter (fun p => p.policy_id = x)).length = 1 := by
  induction ps with
  | nil => simp at hx
  | cons q ps ih =>
    simp only [List.map_cons, List.nodup_cons] at hnd
    simp only [List.map_cons, List.mem_cons] at hx
    rcases hx with hx | hx
    · rw [List.filter_cons_of_pos (by simp [hx.symm])]
      have hrest : ps.filter (fun p => p.policy_id = x) = [] := by
        rw [List.filter_eq_nil_iff]
        intro p hp hpx
        refine hnd.1 ?_
        have hpx' : p.policy_id = x := by simpa using hpx
        rw [← hx, ← hpx']
        exact List.mem_map_of_mem Policy.policy_id hp
      simp [hrest]
    · have hq : ¬(q.policy_id = x) := by
        intro he
        exact hnd.1 (he ▸ hx)
      rw [List.filter_cons_of_neg (by simp [hq])]
      exact ih hnd.2 hx

theorem per_policy_complete_general (ps : List Policy) (cs : List Claim)
    (hnd : (ps.map Policy.policy_id).Nodup) :
    (per_policy ps cs).length = ps.length ∧
    (∀ p ∈ ps,
      ((per_policy ps cs).filter (fun r => r.policy_id = p.policy_id)).length = 1) ∧
    (∀ p ∈ ps, claimsOf cs p.policy_id = [] →
      ∀ r ∈ per_policy ps cs, r.policy_id = p.policy_id →
        r.claims_count = 0 ∧ r.total_claims_amount = 0) := by
  refine ⟨by simp [per_policy], fun p hp => ?_, fun p _hp hc r hr hrp => ?_⟩
  · have hmap : (per_policy ps cs).filter (fun r => r.policy_id = p.policy_id)
        = (ps.filter (fun q => q.policy_id = p.policy_id)).map (perPolicyRowOf cs) := by
      simp only [per_policy, List.filter_map]
      rfl
    rw [hmap, List.length_map]
    exact filter_pid_length_one hnd (List.mem_map_of_mem Policy.policy_id hp)
  · simp only [per_policy, List.mem_map] at hr
    obtain ⟨q, _hq, rfl⟩ := hr
    have hpid : q.policy_id = p.policy_id := hrp
    simp only [perPolicyRowOf]
    rw [hpid, hc]
    simp

theorem mem_genClaims {d : Draws} {ps : List Policy} {c : Claim}
    (hc : c ∈ genClaims d ps) :
    ∃ i j p, p ∈ ps ∧ c.policy_id = p.policy_id
      ∧ c.claim_amount = round2 (d.severityDraw i j) := by
  simp only [genClaims, List.mem_map] at hc
  obtain ⟨kr, hkr, rfl⟩ := hc
  have h2 : kr.2 ∈ claims_rows d ps :=
    List.get?_mem (List.mem_enum_iff_get?.mp hkr)
  simp only [claims_rows, List.mem_flatMap] at h2
  obtain ⟨ip, hip, hkr2⟩ := h2
  simp only [claimsRowsFor, List.mem_map, List.mem_range] at hkr2
  obtain ⟨j, _, hj⟩ := hkr2
  have hp : ip.2 ∈ ps :=
    List.get?_mem (List.mem_enum_iff_get?.mp hip)
  refine ⟨ip.1, j, ip.2, hp, ?_, ?_⟩
  · rw [← hj]
  · rw [← hj]

theorem genClaims_referential (d : Draws) (ps : List Policy) :
    ∀ c ∈ genClaims d ps, c.policy_id ∈ ps.map Policy.policy_id := by
  intro c hc
  obtain ⟨_, _, p, hp, hcp, _⟩ := mem_genClaims hc
  rw [hcp]
  exact List.mem_map_of_mem Policy.policy_id hp

theorem genPolicies_pids_nodup (d : Draws) (n : ℕ) :
    ((genPolicies d n).map Policy.policy_id).Nodup := by
  simp only [genPolicies, List.map_map]
  refine List.Nodup.map ?_ (List.nodup_range n)
  intro a b h
  have h' : a + 1 = b + 1 := h
  omega

/-- Claim C3: on every generator run, `q_per_policy` has exactly one row per
policy, and a policy with no joined claims appears with `claims_count = 0`
and `total_claims_amount = 0.0` rather than being absent or null. -/
theorem generated_per_policy_outer_complete (d : Draws) (n : ℕ) :
    (per_policy (genPolicies d n) (genClaims d (genPolicies d n))).length
        = (genPolicies d n).length ∧
    (∀ p ∈ genPolicies d n,
      ((per_policy (genPolicies d n) (genClaims d (genPolicies d n))).filter
        (fun r => r.policy_id = p.policy_id)).length = 1) ∧
    (∀ p ∈ genPolicies d n,
      claimsOf (genClaims d (genPolicies d n)) p.policy_id = [] →
      ∀ r ∈ per_policy (genPolicies d n) (genClaims d (genPolicies d n)),
        r.policy_id = p.policy_id →
        r.claims_count = 0 ∧ r.total_claims_amount = 0) :=
  per_policy_complete_general _ _ (genPolicies_pids_nodup d n)

theorem generated_per_policy_outer_complete_witness :
    (per_policy (genPolicies constDraws 2) (genClaims constDraws (genPolicies constDraws 2))).length
        = (genPolicies constDraws 2).length ∧
    ((per_policy (genPolicies constDraws 2)
        (genClaims constDraws (genPolicies constDraws 2))).filter
      (fun r => r.policy_id = (mkPolicy constDraws 0).policy_id)).length = 1 :=
  ⟨(generated_per_policy_outer_complete constDraws 2).1,
   (generated_per_policy_outer_complete constDraws 2).2.1 (mkPolicy constDraws 0)
     (by
       refine List.mem_map_of_mem (mkPolicy constDraws) ?_
       simp)⟩

theorem sum_map_add {α M : Type} [AddCommMonoid M] (L : List α) (f g : α → M) :
    (L.map (fun x => f x + g x)).sum = (L.map f).sum + (L.map g).sum := by
  induction L with
  | nil => simp
  | cons x L ih =>
    simp only [List.map_cons, List.sum_cons, ih]
    exact add_add_add_comm _ _ _ _

theorem claimsOf_cons (c : Claim) (cs : List Claim) (pid : ℕ) :
    claimsOf (c :: cs) pid
      = if c.policy_id = pid then c :: claimsOf cs pid else claimsOf cs pid := by
  by_cases h : c.policy_id = pid <;> simp [claimsOf, List.filter_cons, h]

theorem sum_if_pid (ps : List Policy) (x : ℕ) (v : ℚ) :
    (ps.map (fun p => if x = p.policy_id then v else 0)).sum
      = ((ps.filter (fun p => p.policy_id = x)).length : ℚ) * v := by
  induction ps with
  | nil => simp
  | cons q ps ih =>
    by_cases h : q.policy_id = x
    · rw [List.map_cons, List.sum_cons, ih, List.filter_cons_of_pos (by simp [h]),
        List.length_cons, if_pos h.symm]
      push_cast
      ring
    · rw [List.map_cons, List.sum_cons, ih, List.filter_cons_of_neg (by simp [h]),
        if_neg (fun he => h he.symm)]
      ring

theorem sum_claims_partition (ps : List Policy) (cs : List Claim)
    (hnd : (ps.map Policy.policy_id).Nodup)
    (href : ∀ c ∈ cs, c.policy_id ∈ ps.map Policy.policy_id) :
    (ps.map (fun p => ((claimsOf cs p.policy_id).map Claim.claim_amount).sum)).sum
      = (cs.map Claim.claim_amount).sum := by
  induction cs with
  | nil => simp [claimsOf]
  | cons c cs ih =>
    have hstep : ∀ p : Policy,
        ((claimsOf (c :: cs) p.policy_id).map Claim.claim_amount).sum
          = (if c.policy_id = p.policy_id then c.claim_amount else 0)
            + ((claimsOf cs p.policy_id).map Claim.claim_amount).sum := by
      intro p
      rw [claimsOf_cons]
      by_cases h : c.policy_id = p.policy_id <;> simp [h]
    simp only [hstep]
    rw [sum_map_add, sum_if_pid ps c.policy_id c.claim_amount,
      filter_pid_length_one hnd (href c (List.mem_cons_self c cs)),
      ih (fun c' hc' => href c' (List.mem_cons_of_mem c hc'))]
    simp only [List.map_cons, List.sum_cons]
    push_cast
    ring

theorem summary_sum_check_general (ps : List Policy) (cs : List Claim)
    (hnd : (ps.map Policy.policy_id).Nodup)
    (href : ∀ c ∈ cs, c.policy_id ∈ ps.map Policy.policy_id) :
    (summary_metrics ps cs).total_claims_amount
        = ((per_policy ps cs).map PerPolicyRow.total_claims_amount).sum ∧
    ((per_policy ps cs).map PerPolicyRow.total_claims_amount).sum
        = (cs.map Claim.claim_amount).sum := by
  refine ⟨rfl, ?_⟩
  have hpp : (per_policy ps cs).map PerPolicyRow.total_claims_amount
      = ps.map (fun p => ((claimsOf cs p.policy_id).map Claim.claim_amount).sum) := by
    simp only [per_policy, List.map_map]
    rfl
  rw [hpp]
  exact sum_claims_partition ps cs hnd href

/-- Claim C7: on every generator run, the summary field `total_claims_amount`
equals the sum of the per-policy totals, which in turn equals the sum of
the amounts of all generated claims. -/
theorem generated_summary_sum_check (d : Draws) (n : ℕ) :
    (summary_metrics (genPolicies d n) (genClaims d (genPolicies d n))).total_claims_amount
        = ((per_policy (genPolicies d n) (genClaims d (genPolicies d n))).map
            PerPolicyRow.total_claims_amount).sum ∧
    ((per_policy (genPolicies d n) (genClaims d (genPolicies d n))).map
        PerPolicyRow.total_claims_amount).sum
      = ((genClaims d (genPolicies d n)).map Claim.claim_amount).sum :=
  summary_sum_check_general _ _ (genPolicies_pids_nodup d n)
    (genClaims_referential d (genPolicies d n))

/-! ## Claim C2: size and order of the top-policies query -/

theorem top_policies_length (ps : List Policy) (cs : List Claim) :
    (top_policies ps cs).length = min 10 ps.length := by
  simp [top_policies, List.length_take, List.length_insertionSort, per_policy]

theorem top_policies_pairwise (ps : List Policy) (cs : List Claim) :
    (top_policies ps cs).Pairwise claimsDescRel :=
  List.Pairwise.sublist (List.take_sublist 10 _)
    (List.sorted_insertionSort claimsDescRel (per_policy ps cs))

/-- Claim C2 (amended): `q_top_policies` returns exactly
`min(10, |Policies|)` rows, sorted in non-increasing (weakly descending)
order of total claim amount.  Strict descent fails in general because ties
are possible (see the counterexample). -/
theorem top_policies_size_and_order (ps : List Policy) (cs : List Claim) :
    (top_policies ps cs).length = min 10 ps.length ∧
    (top_policies ps cs).Pairwise claimsDescRel :=
  ⟨top_policies_length ps cs, top_policies_pairwise ps cs⟩

theorem mem_top_policies_no_claims {r : PerPolicyRow} {ps : List Policy}
    (hr : r ∈ top_policies ps []) : r.total_claims_amount = 0 := by
  have h1 : r ∈ List.insertionSort claimsDescRel (per_policy ps []) :=
    (List.take_sublist 10 _).subset hr
  have h2 : r ∈ per_policy ps [] :=
    (List.perm_insertionSort claimsDescRel _).subset h1
  simp only [per_policy, List.mem_map] at h2
  obtain ⟨p, _, rfl⟩ := h2
  simp [perPolicyRowOf, claimsOf]

theorem genClaims_constDraws :
    (generate constDraws).2 = [] := by
  show genClaims constDraws (genPolicies constDraws N_POLICIES) = []
  simp [genClaims, claims_rows, claimsRowsFor, constDraws]

/-- Counterexample to claim C2 as stated: on the generator run driven by
`constDraws` (1000 policies, zero claims for each — a possible outcome of
the Poisson draws), the top-policies rows all have total claim amount 0, so
they are not sorted *strictly* descending. -/
theorem top_policies_not_strictly_descending :
    ¬ (((top_policies (generate constDraws).1 (generate constDraws).2).map
        PerPolicyRow.total_claims_amount).Chain' (fun a b => b < a)) := by
  rw [genClaims_constDraws]
  intro hchain
  have key : ∀ x ∈ (top_policies (generate constDraws).1 []).map
      PerPolicyRow.total_claims_amount, x = 0 := by
    intro x hx
    obtain ⟨r, hr, rfl⟩ := List.mem_map.mp hx
    exact mem_top_policies_no_claims hr
  have hlen : ((top_policies (generate constDraws).1 []).map
      PerPolicyRow.total_claims_amount).length = 10 := by
    rw [List.length_map, top_policies_length]
    show min 10 (genPolicies constDraws N_POLICIES).length = 10
    simp [genPolicies, N_POLICIES]
  generalize hE : ((top_policies (generate constDraws).1 []).map
      PerPolicyRow.total_claims_amount) = L at hchain key hlen
  rcases L with _ | ⟨a, L⟩
  · simp at hlen
  rcases L with _ | ⟨b, L⟩
  · simp at hlen
  have hab : b < a := (List.chain'_cons.mp hchain).1
  have ha : a = 0 := key a (List.mem_cons_self a _)
  have hb : b = 0 := key b (List.mem_cons_of_mem a (List.mem_cons_self b L))
  rw [ha, hb] at hab
  exact lt_irrefl 0 hab

/-! ## Claim C8: age bucketing -/

theorem bucket_indicator_sum {x : String} (hx : x ∈ bucketLabels) :
    (bucketLabels.map (fun l => if x = l then (1:ℕ) else 0)).sum = 1 := by
  fin_cases hx <;> decide

theorem age_group_unique_bucket (a : ℤ) :
    (bucketLabels.filter (fun l => age_group a = l)).length = 1 := by
  have h : age_group a ∈ bucketLabels := age_group_mem_bucketLabels a
  generalize age_group a = x at h ⊢
  fin_cases h <;> decide

theorem bucket_counts_sum (ps : List Policy) :
    (bucketLabels.map
      (fun l => (ps.filter (fun p => age_group p.customer_age = l)).length)).sum
      = ps.length := by
  induction ps with
  | nil => simp
  | cons p ps ih =>
    have hstep : ∀ l : String,
        ((p :: ps).filter (fun q => age_group q.customer_age = l)).length
          = (if age_group p.customer_age = l then 1 else 0)
            + (ps.filter (fun q => age_group q.customer_age = l)).length := by
      intro l
      by_cases h : age_group p.customer_age = l
      · simp [List.filter_cons, h]
        omega
      · simp [List.filter_cons, h]
    simp only [hstep]
    rw [sum_map_add, ih, bucket_indicator_sum (age_group_mem_bucketLabels p.customer_age)]
    simp [Nat.add_comm]

theorem bucketIdx_strict_mono :
    ∀ a ∈ bucketLabels, ∀ b ∈ bucketLabels, a < b → bucketIdx a < bucketIdx b := by
  simp only [String.lt_iff_toList_lt]
  decide

/-- Claim C8: every policy falls into exactly one of the six fixed buckets,
the six bucket counts sum to the total policy count, and the
`q_age_groups` rows come out sorted ascending in the canonical bucket
sequence (18-29 first, 70+ last). -/
theorem age_group_stats_bucketing (ps : List Policy) (cs : List Claim) :
    (∀ a : ℤ, (bucketLabels.filter (fun l => age_group a = l)).length = 1) ∧
    ((bucketLabels.map
        (fun l => (ps.filter (fun p => age_group p.customer_age = l)).length)).sum
      = ps.length) ∧
    ((age_group_stats ps cs).map AgeRow.age_group).Pairwise
      (fun a b => bucketIdx a < bucketIdx b) := by
  refine ⟨age_group_unique_bucket, bucket_counts_sum ps, ?_⟩
  have hmap : (age_group_stats ps cs).map AgeRow.age_group
      = List.insertionSort (fun a b => a ≤ b) (age_labels_present ps) := by
    simp only [age_group_stats, List.map_map]
    exact List.map_id _
  rw [hmap]
  have hsorted : (List.insertionSort (fun a b => a ≤ b)
      (age_labels_present ps)).Pairwise (fun a b => a ≤ b) :=
    List.sorted_insertionSort _ _
  have hnd : (List.insertionSort (fun a b => a ≤ b)
      (age_labels_present ps)).Nodup :=
    ((List.perm_insertionSort _ _).nodup_iff).mpr (List.nodup_dedup _)
  have hmem : ∀ x ∈ List.insertionSort (fun a b => a ≤ b) (age_labels_present ps),
      x ∈ bucketLabels := by
    intro x hx
    have hx' : x ∈ age_labels_present ps :=
      (List.perm_insertionSort _ _).subset hx
    simp only [age_labels_present, List.mem_dedup, List.mem_map] at hx'
    obtain ⟨p, _, rfl⟩ := hx'
    exact age_group_mem_bucketLabels p.customer_age
  have hlt : (List.insertionSort (fun a b => a ≤ b)
      (age_labels_present ps)).Pairwise (fun a b => a < b) :=
    hsorted.imp₂ (fun _ _ hle hne => lt_of_le_of_ne hle hne) hnd
  have hltm := List.Pairwise.and_mem.mp hlt
  exact hltm.imp (fun h =>
    bucketIdx_strict_mono _ (hmem _ h.1) _ (hmem _ h.2.1) h.2.2)

/-! ## Claim C1: zero-denominator behaviour of the loss ratios -/

/-- Claim C1 (amended): the per-car-type and per-age-group loss ratios are
`NULL` (`Option.none`) whenever their summed-premium denominator is zero —
the SQL `CASE` guard — and, being `Option ℚ` values, can never be an
infinity/NaN.  The overall loss ratio in `summary_metrics` is an unguarded
float division: it is a finite ratio whenever the total premium is nonzero
(which holds for every generated dataset), but carries no `NULL` guard of
its own (see the counterexample for its zero-denominator behaviour). -/
theorem loss_ratio_zero_denominator_guards (ps : List Policy) (cs : List Claim) :
    (∀ row ∈ loss_by_car ps cs, row.total_premiums = 0 → row.loss_ratio = none) ∧
    (∀ row ∈ age_group_stats ps cs, row.total_premiums = 0 → row.loss_ratio = none) ∧
    (((per_policy ps cs).map PerPolicyRow.premium).sum ≠ 0 →
      (summary_metrics ps cs).average_loss_ratio_overall
        = FloatResult.finite
            (((per_policy ps cs).map PerPolicyRow.total_claims_amount).sum
              / ((per_policy ps cs).map PerPolicyRow.premium).sum)) := by
  refine ⟨fun row hrow h0 => ?_, fun row hrow h0 => ?_, fun hne => ?_⟩
  · simp only [loss_by_car, List.mem_map] at hrow
    obtain ⟨ct, _, rfl⟩ := hrow
    simp only [carRowOf] at h0 ⊢
    rw [if_pos h0]
  · simp only [age_group_stats, List.mem_map] at hrow
    obtain ⟨lbl, _, rfl⟩ := hrow
    simp only [ageRowOf] at h0 ⊢
    rw [if_pos h0]
  · simp only [summary_metrics, fdiv]
    rw [if_neg hne]

theorem loss_ratio_zero_denominator_guards_witness :
    (carRowOf zeroPremiumPolicies [] "Sedan").loss_ratio = none :=
  (loss_ratio_zero_denominator_guards zeroPremiumPolicies []).1
    (carRowOf zeroPremiumPolicies [] "Sedan")
    (by simp [loss_by_car, zeroPremiumPolicies])
    (by norm_num [carRowOf, zeroPremiumPolicies, claimsOf, joinRowCount])

/-- Counterexample to claim C1 as stated: on a dataset with zero summed
premium (the degenerate empty book), the overall loss-ratio computation of
`summary_metrics` divides by zero with no guard and produces a non-finite
float (NaN), rather than an explicit undefined/null value. -/
theorem summary_loss_ratio_unguarded :
    ((per_policy ([] : List Policy) ([] : List Claim)).map PerPolicyRow.premium).sum = 0 ∧
    (summary_metrics [] []).average_loss_ratio_overall = FloatResult.nonfinite := by
  constructor
  · simp [per_policy]
  · simp [summary_metrics, per_policy, fdiv]

/-! ## Claim C6: claim amounts and referential integrity -/

/-- Claim C6 (amended): under the lognormal support hypothesis (all
severity draws positive), every generated claim has a nonnegative amount
and references an existing generated policy; the amount is strictly
positive whenever every severity draw exceeds 0.005 (rounding to two
decimals sends draws of at most 0.005 to zero — see the counterexample). -/
theorem generated_claims_invariants (d : Draws) (n : ℕ)
    (hpos : ∀ i j, 0 < d.severityDraw i j) :
    (∀ c ∈ genClaims d (genPolicies d n),
      0 ≤ c.claim_amount ∧ c.policy_id ∈ (genPolicies d n).map Policy.policy_id) ∧
    ((∀ i j, 1/200 < d.severityDraw i j) →
      ∀ c ∈ genClaims d (genPolicies d n), 0 < c.claim_amount) := by
  constructor
  · intro c hc
    obtain ⟨i, j, p, hp, hcp, hca⟩ := mem_genClaims hc
    constructor
    · rw [hca]
      exact round2_nonneg (le_of_lt (hpos i j))
    · rw [hcp]
      exact List.mem_map_of_mem Policy.policy_id hp
  · intro h200 c hc
    obtain ⟨i, j, _, _, _, hca⟩ := mem_genClaims hc
    rw [hca]
    exact round2_pos (h200 i j)

theorem generated_claims_invariants_witness :
    0 < (Claim.mk 1 1 (round2 7000)).claim_amount :=
  (generated_claims_invariants oneClaimDraws 1
      (fun i j => by norm_num [oneClaimDraws, constDraws])).2
    (fun i j => by norm_num [oneClaimDraws, constDraws])
    (Claim.mk 1 1 (round2 7000))
    (by
      have he : genClaims oneClaimDraws (genPolicies oneClaimDraws 1)
          = [Claim.mk 1 1 (round2 7000)] := rfl
      rw [he]
      exact List.mem_singleton_self _)

/-- Counterexample to claim C6 as stated: a severity draw of
`0.004` — strictly positive, inside the lognormal support — rounds to a
claim amount of `0.00`, so "every generated claim has
`claim_amount > 0`" fails on the run driven by `tinySevDraws`. -/
theorem generated_claim_amount_zero :
    (∀ i j, 0 < tinySevDraws.severityDraw i j) ∧
    ¬ (∀ c ∈ (generate tinySevDraws).2, 0 < c.claim_amount) := by
  constructor
  · intro i j
    norm_num [tinySevDraws, constDraws]
  · intro hall
    have hp0 : (genPolicies tinySevDraws N_POLICIES).get? 0
        = some (mkPolicy tinySevDraws 0) := by
      simp [genPolicies, List.get?_map, List.get?_range, N_POLICIES]
    have hip : ((0:ℕ), mkPolicy tinySevDraws 0)
        ∈ (genPolicies tinySevDraws N_POLICIES).enum :=
      List.mem_enum_iff_get?.mpr hp0
    have hkr : ((1:ℕ), round2 (1/250))
        ∈ claims_rows tinySevDraws (genPolicies tinySevDraws N_POLICIES) := by
      simp only [claims_rows, List.mem_flatMap]
      refine ⟨(0, mkPolicy tinySevDraws 0), hip, ?_⟩
      simp [claimsRowsFor, tinySevDraws, constDraws, mkPolicy]
    obtain ⟨k, hk⟩ := List.mem_iff_get?.mp hkr
    have henum : (k, ((1:ℕ), round2 (1/250)))
        ∈ (claims_rows tinySevDraws (genPolicies tinySevDraws N_POLICIES)).enum :=
      List.mem_enum_iff_get?.mpr hk
    have hcm : Claim.mk (k+1) 1 (round2 (1/250)) ∈ (generate tinySevDraws).2 := by
      show _ ∈ genClaims tinySevDraws (genPolicies tinySevDraws N_POLICIES)
      simp only [genClaims, List.mem_map]
      exact ⟨(k, (1, round2 (1/250))), henum, rfl⟩
    have hpos0 : (0:ℚ) < round2 (1/250) := hall _ hcm
    have hz : round2 ((1:ℚ)/250) = 0 := by
      norm_num [round2, roundHalfEven, Int.floor_eq_iff]
    rw [hz] at hpos0
    exact lt_irrefl 0 hpos0

end Insurance
